import Mathlib

/-!
Verification of the syllable-directed word-placement engine of the
syllaflow repository against its natural-language specification.

The development shallowly embeds the core engine of
`src/scripts/syllaflow_algorithm.py` (class `GridGenerator` and class
`SyllableDetector`), the syllable splitter `split_syllables` of
`src/scripts/mineru_integration_module.py`, the post-processing step
`_post_process_syllables` of
`src/scripts/advanced_word_extraction_system.py`, and the direction
sequencing of `src/kdp_wordsearch_generator.py`.

Modelling conventions:
  * a grid cell (Python: the string `''` or a one-character string) is an
    `Option Char`: `none` is the empty marker, `some c` a letter;
  * the ambient random source is determinized: every `random.randint` /
    `random.choice` draw is an explicit input (a start coordinate, or a
    `Nat` index `k` selecting element `k % length` of the candidate list,
    which ranges over exactly the draws Python can make);
  * words and syllables are `List Char` (Python strings);
  * bookkeeping fields that no placement code reads (stress level,
    phonetic, definitions, etymology, prompts) are omitted from the
    records; the grid-relevant fields are kept exactly.
-/

/-- Eight placement directions, in Python declaration order
(`class Direction(Enum)`, syllaflow_algorithm.py lines 22-31);
`list(Direction)` enumerates them in this order. -/
inductive Direction where
  | RIGHT
  | LEFT
  | DOWN
  | UP
  | DOWN_RIGHT
  | DOWN_LEFT
  | UP_RIGHT
  | UP_LEFT
deriving DecidableEq, Repr

/-- The `(Δrow, Δcol)` value of each `Direction` enum member. -/
def Direction.delta : Direction → Int × Int
  | .RIGHT => (0, 1)
  | .LEFT => (0, -1)
  | .DOWN => (1, 0)
  | .UP => (-1, 0)
  | .DOWN_RIGHT => (1, 1)
  | .DOWN_LEFT => (1, -1)
  | .UP_RIGHT => (-1, 1)
  | .UP_LEFT => (-1, -1)

/-- `list(Direction)` in enum order. -/
def allDirections : List Direction :=
  [.RIGHT, .LEFT, .DOWN, .UP, .DOWN_RIGHT, .DOWN_LEFT, .UP_RIGHT, .UP_LEFT]

/-- A grid: rows of cells, each cell empty (`none`) or one letter. -/
abbrev Grid := List (List (Option Char))

/-- `[['' for _ in range(width)] for _ in range(height)]`
(GridGenerator.__init__ / generate_puzzle reset, lines 294 and 313). -/
def emptyGrid (width height : Nat) : Grid :=
  List.replicate height (List.replicate width none)

/-- `self.grid[row][col]` read.  All reads the engine performs are guarded
by `_is_valid_position`, so the out-of-range default `none` is never hit
on engine traces. -/
def getCell (g : Grid) (r c : Int) : Option Char :=
  if r < 0 ∨ c < 0 then none
  else ((g.get? r.toNat).bind (fun row => row.get? c.toNat)).join

/-- `self.grid[row][col] = ch` write (no-op out of range; the engine only
writes positions previously validated by `_is_valid_position`). -/
def setCell (g : Grid) (r c : Int) (ch : Char) : Grid :=
  if r < 0 ∨ c < 0 then g
  else g.set r.toNat ((g.getD r.toNat []).set c.toNat (some ch))

/-- `GridGenerator._is_valid_position` (lines 432-434):
`0 <= row < self.height and 0 <= col < self.width`. -/
def isValidPosition (height width : Nat) (r c : Int) : Bool :=
  decide (0 ≤ r ∧ r < (height : Int) ∧ 0 ≤ c ∧ c < (width : Int))

/-- Word plus its syllabification, the two fields of `WordData` that the
placement engine reads (`word_data.word`, `word_data.syllables[i].text`). -/
structure WordData where
  word : List Char
  syllables : List (List Char)
deriving DecidableEq, Repr

/-- `PlacedWord`: the committed word together with its recorded placement
path (the per-character `(row, col, direction)` of `segments`). -/
structure PlacedWord where
  word : List Char
  syllables : List (List Char)
  path : List (Int × Int × Direction)
deriving DecidableEq, Repr

/-- The candidate-direction list for one syllable of
`_generate_syllable_path` (lines 403-408): `list(Direction)`, with the
previous syllable's direction removed when `i > 0` and the path so far is
non-empty. -/
def availableDirectionsSyllaflow (first : Bool) (prev : Option Direction) : List Direction :=
  if first then allDirections
  else match prev with
    | some d => allDirections.erase d
    | none => allDirections

/-- The inner per-character walk of `_generate_syllable_path`
(lines 413-426): validate the current cell, record `(row, col, direction)`,
advance by the direction's delta.  Returns the recorded run and the
position one step past its last cell. -/
def walkSyllable (height width : Nat) (chars : List Char) (r c : Int) (dir : Direction) :
    Option (List (Int × Int × Direction) × Int × Int) :=
  match chars with
  | [] => some ([], r, c)
  | _ :: rest =>
    if isValidPosition height width r c then
      match walkSyllable height width rest (r + dir.delta.1) (c + dir.delta.2) dir with
      | some (steps, r', c') => some ((r, c, dir) :: steps, r', c')
      | none => none
    else none

/-- The syllable loop of `_generate_syllable_path` (lines 394-430).
`ks` supplies one `random.choice` draw per syllable: the chosen direction
is element `k % length` of the candidate list. -/
def genPathAux (height width : Nat) :
    List (List Char) → Int → Int → List Nat → List (Int × Int × Direction) → Bool →
    Option (List (Int × Int × Direction))
  | [], _, _, _, path, _ => some path
  | syl :: rest, r, c, ks, path, first =>
    let avail := availableDirectionsSyllaflow first ((path.getLast?).map (fun st => st.2.2))
    let dir := avail.getD (ks.headD 0 % avail.length) .RIGHT
    match walkSyllable height width syl r c dir with
    | some (steps, r', c') =>
      genPathAux height width rest r' c' ks.tail (path ++ steps) false
    | none => none

/-- `GridGenerator._generate_syllable_path` (lines 394-430). -/
def generateSyllablePath (height width : Nat) (syllables : List (List Char))
    (startR startC : Int) (ks : List Nat) : Option (List (Int × Int × Direction)) :=
  genPathAux height width syllables startR startC ks [] true

/-- `GridGenerator._can_place_word_at_path` (lines 436-449): the path must
have one coordinate per letter, and each coordinate must be in bounds and
empty or already holding exactly the letter the word puts there. -/
def canPlaceWordAtPath (height width : Nat) (g : Grid) (word : List Char)
    (path : List (Int × Int × Direction)) : Bool :=
  path.length == word.length &&
  (path.zip word).all (fun pr =>
    isValidPosition height width pr.1.1 pr.1.2.1 &&
    (getCell g pr.1.1 pr.1.2.1 == none || getCell g pr.1.1 pr.1.2.1 == some pr.2))

/-- The grid mutation of `GridGenerator._place_word_at_path`
(lines 451-484): `self.grid[row][col] = word[i]`, written in path order. -/
def placeWordAtPath (g : Grid) (word : List Char)
    (path : List (Int × Int × Direction)) : Grid :=
  (path.zip word).foldl (fun gr pr => setCell gr pr.1.1 pr.1.2.1 pr.2) g

/-- `GridGenerator._place_word_in_grid` (lines 372-392): up to
`max_attempts` random starts (each attempt: a start cell plus the
per-syllable direction draws); on the first attempt whose generated path
is non-empty and passes `_can_place_word_at_path`, commit and record. -/
def placeWordInGrid (height width : Nat) (g : Grid) (wd : WordData)
    (attempts : List (Int × Int × List Nat)) : Grid × Option PlacedWord :=
  match attempts with
  | [] => (g, none)
  | (sr, sc, ks) :: rest =>
    match generateSyllablePath height width wd.syllables sr sc ks with
    | some path =>
      if !path.isEmpty && canPlaceWordAtPath height width g wd.word path then
        (placeWordAtPath g wd.word path, some ⟨wd.word, wd.syllables, path⟩)
      else placeWordInGrid height width g wd rest
    | none => placeWordInGrid height width g wd rest

/-- The letters a word demands at one grid cell: `word[i]` for every index
`i` of its recorded path whose coordinate is that cell. -/
def lettersRequiredAt (pw : PlacedWord) (r c : Int) : List Char :=
  (pw.path.zip pw.word).filterMap
    (fun pr => if pr.1.1 = r ∧ pr.1.2.1 = c then some pr.2 else none)

/-- The letters read from the grid along a recorded path, in path order. -/
def readPath (g : Grid) (path : List (Int × Int × Direction)) : List (Option Char) :=
  path.map (fun st => getCell g st.1 st.2.1)

/-- `SyllableDetector.vowel_groups` membership (syllaflow_algorithm.py
line 93; note `y` counts as a vowel here).  Inputs reaching the detector
are already lowercased by `detect_syllables`. -/
def isVowelSF (c : Char) : Bool := c ∈ ['a', 'e', 'i', 'o', 'u', 'y']

/-- The scan loop of `SyllableDetector._algorithmic_syllable_detection`
(lines 236-274), with `i`, `current_syllable`, `vowel_count` and the
accumulated syllable list as explicit state.  In the cluster-split branch
Python sets `i = j - len(consonant_cluster) + split_point - 1` and the
loop then adds 1, i.e. it resumes at `i + split_point + 1`; syllable texts
are kept, the (unused downstream) positional/stress fields are dropped. -/
def asdAux (w : List Char) (i : Nat) (cur : List Char) (vc : Nat)
    (sylls : List (List Char)) : List (List Char) :=
  if h : i < w.length then
    let c := w.get ⟨i, h⟩
    let cur1 := cur ++ [c]
    if isVowelSF c then
      if i + 1 < w.length ∧ ¬ (isVowelSF (w.getD (i + 1) ' ') = true) ∧ vc + 1 > 0 then
        let cluster := (w.drop (i + 1)).takeWhile (fun x => !(isVowelSF x))
        if 1 < cluster.length then
          asdAux w (i + cluster.length / 2 + 1) (cluster.drop (cluster.length / 2)) 0
            (sylls ++ [cur1 ++ cluster.take (cluster.length / 2)])
        else asdAux w (i + 1) cur1 (vc + 1) sylls
      else asdAux w (i + 1) cur1 (vc + 1) sylls
    else asdAux w (i + 1) cur1 vc sylls
  else if cur.isEmpty then sylls else sylls ++ [cur]
termination_by w.length - i
decreasing_by
  · omega
  · omega
  · omega
  · omega

/-- `SyllableDetector._algorithmic_syllable_detection` (lines 227-286),
syllable texts only; the final `return syllables if syllables else
[SyllableSegment(word, ...)]` fallback included. -/
def algorithmicSyllableDetection (w : List Char) : List (List Char) :=
  let r := asdAux w 0 [] 0 []
  if r.isEmpty then [w] else r

/-- The `syllables` entries of `SyllableDetector.mindfulness_words`
(lines 112-203): the curated syllabifications consulted before the
algorithmic fallback. -/
def mindfulnessWords : List (List Char × List (List Char)) :=
  [ ("meditation".toList, ["med", "i", "ta", "tion"].map String.toList),
    ("compassion".toList, ["com", "pas", "sion"].map String.toList),
    ("awareness".toList, ["a", "ware", "ness"].map String.toList),
    ("gratitude".toList, ["grat", "i", "tude"].map String.toList),
    ("serenity".toList, ["se", "ren", "i", "ty"].map String.toList),
    ("wisdom".toList, ["wis", "dom"].map String.toList),
    ("presence".toList, ["pres", "ence"].map String.toList),
    ("equanimity".toList, ["e", "qua", "nim", "i", "ty"].map String.toList),
    ("mindfulness".toList, ["mind", "ful", "ness"].map String.toList),
    ("tranquility".toList, ["tran", "quil", "i", "ty"].map String.toList) ]

/-- `SyllableDetector.detect_syllables` (lines 205-225) on an already
lowercased and stripped word: curated database first, algorithmic
detection as fallback. -/
def detectSyllables (w : List Char) : List (List Char) :=
  match mindfulnessWords.find? (fun e => e.1 == w) with
  | some e => e.2
  | none => algorithmicSyllableDetection w

/-- `word.lower().strip()` (as in `_create_word_data`, line 341). -/
def normalizeWord (w : List Char) : List Char :=
  (((w.map Char.toLower).dropWhile Char.isWhitespace).reverse.dropWhile
    Char.isWhitespace).reverse

/-- `GridGenerator._create_word_data` (lines 337-370), restricted to the
fields the placement engine reads; it succeeds for every word, so the
`if word_data:` guard of `generate_puzzle` never filters anything. -/
def createWordData (w : List Char) : WordData :=
  let w' := normalizeWord w
  ⟨w', detectSyllables w'⟩

/-- One insertion step of the stable descending-by-length sort that
embeds `word_data_list.sort(key=lambda w: len(w.word), reverse=True)`
(line 310): a word is inserted behind every word of length `≥` its own,
so equal lengths retain their original order. -/
def insertByLenDesc (wd : WordData) : List WordData → List WordData
  | [] => [wd]
  | x :: xs =>
    if x.word.length ≤ wd.word.length then wd :: x :: xs
    else x :: insertByLenDesc wd xs

/-- Stable sort by word length, longest first (generate_puzzle line 310). -/
def sortByLenDesc (l : List WordData) : List WordData :=
  l.foldr insertByLenDesc []

/-- `letters = 'abcdefghijklmnopqrstuvwxyz'` of `_fill_empty_spaces`
(line 488). -/
def lettersAZ : List Char := "abcdefghijklmnopqrstuvwxyz".toList

/-- One row of `GridGenerator._fill_empty_spaces` (lines 486-492): each
empty cell gets `random.choice(letters)` (draw `k` picks letter
`k % 26`), consuming one draw per empty cell; filled cells are skipped
and consume nothing.  Returns the row and the remaining draws. -/
def fillRow : List Nat → List (Option Char) → List (Option Char) × List Nat
  | ks, [] => ([], ks)
  | ks, none :: rest =>
    let p := fillRow ks.tail rest
    (some (lettersAZ.getD (ks.headD 0 % 26) 'a') :: p.1, p.2)
  | ks, some c :: rest =>
    let p := fillRow ks rest
    (some c :: p.1, p.2)

/-- Row-major traversal of `_fill_empty_spaces`, threading the draws. -/
def fillRows : List Nat → Grid → Grid
  | _, [] => []
  | ks, row :: rest =>
    let p := fillRow ks row
    p.1 :: fillRows p.2 rest

/-- `GridGenerator._fill_empty_spaces` (lines 486-492). -/
def fillEmptySpaces (ks : List Nat) (g : Grid) : Grid :=
  fillRows ks g

/-- The mutable generator state of `GridGenerator.__init__`
(lines 291-296): dimensions, grid, placed-word list. -/
structure GenState where
  width : Nat
  height : Nat
  grid : Grid
  placedWords : List PlacedWord
deriving Repr

/-- The parts of the `generate_puzzle` output dictionary (lines 325-333)
the claims concern: the final grid and the recorded placements. -/
structure PuzzleResult where
  grid : Grid
  placedWords : List PlacedWord
deriving DecidableEq, Repr

/-- The word loop of `generate_puzzle` (lines 317-319): place each word
in order, accumulating the grid and the placed-word records; each word
consumes its own attempt draws. -/
def placeAll (height width : Nat) :
    Grid → List PlacedWord → List WordData → List (List (Int × Int × List Nat)) →
    Grid × List PlacedWord
  | g, placed, [], _ => (g, placed)
  | g, placed, wd :: rest, atts =>
    match placeWordInGrid height width g wd (atts.headD []) with
    | (g', some pw) => placeAll height width g' (placed ++ [pw]) rest atts.tail
    | (g', none) => placeAll height width g' placed rest atts.tail

/-- `GridGenerator.generate_puzzle` (lines 298-335): build word data,
sort longest-first, reset the grid and the placed-word list, place each
word best-effort, fill the empty cells, package the result.  `atts`
carries each word's attempt draws (Python: 100 attempts per word),
`fillKs` the filler draws.  No validation of the configuration happens
anywhere in the function. -/
def generatePuzzle (st : GenState) (wordList : List (List Char))
    (atts : List (List (Int × Int × List Nat))) (fillKs : List Nat) : PuzzleResult :=
  let sorted := sortByLenDesc (wordList.map createWordData)
  let resetGrid := emptyGrid st.width st.height
  let res := placeAll st.height st.width resetGrid [] sorted atts
  { grid := fillEmptySpaces fillKs res.1, placedWords := res.2 }

/-- Vowel test of `MinerUIntegration`'s syllable processor
(mineru_integration_module.py line 501: `set('aeiouAEIOU')`; `y` is not a
vowel here). -/
def isVowelMU (c : Char) : Bool := c ∈ "aeiouAEIOU".toList

/-- `consonant_clusters` of the mineru syllable processor
(lines 502-506). -/
def clustersMU : List (List Char) :=
  ["bl", "br", "cl", "cr", "dr", "fl", "fr", "gl", "gr", "pl", "pr",
   "sc", "sk", "sl", "sm", "sn", "sp", "st", "sw", "tr", "tw", "th",
   "ch", "sh", "wh", "ph", "gh"].map String.toList

/-- `_is_syllable_boundary` (mineru_integration_module.py lines 548-565). -/
def isSyllableBoundaryMU (w : List Char) (pos : Nat) : Bool :=
  if pos + 1 ≥ w.length then false
  else
    let cur := w.getD pos ' '
    let nxt := w.getD (pos + 1) ' '
    if isVowelMU cur ∧ ¬ (isVowelMU nxt = true) then
      if pos + 2 < w.length then
        if [w.getD (pos + 1) ' ', w.getD (pos + 2) ' '] ∈ clustersMU then false
        else true
      else true
    else false

/-- `syllables[-1] += current_syllable` / `syllables.append(...)` of
`split_syllables`' tail handling (lines 538-543). -/
def appendToLast (sylls : List (List Char)) (cur : List Char) : List (List Char) :=
  match sylls with
  | [] => [cur]
  | [s] => [s ++ cur]
  | s :: rest => s :: appendToLast rest cur

/-- The scan loop of `split_syllables` (lines 527-543). -/
def splitSyllablesAux (w : List Char) (i : Nat) (cur : List Char)
    (sylls : List (List Char)) : List (List Char) :=
  if h : i < w.length then
    let cur1 := cur ++ [w.get ⟨i, h⟩]
    if isSyllableBoundaryMU w i then splitSyllablesAux w (i + 1) [] (sylls ++ [cur1])
    else splitSyllablesAux w (i + 1) cur1 sylls
  else if cur.isEmpty then sylls else appendToLast sylls cur
termination_by w.length - i

/-- `MinerUIntegration.split_syllables` (lines 518-546) on an already
lowercased and stripped word: words of length `≤ 2` are returned whole,
otherwise the boundary scan runs and a trailing vowelless remainder is
merged into the last syllable. -/
def splitSyllables (w : List Char) : List (List Char) :=
  if w.length ≤ 2 then [w]
  else
    let r := splitSyllablesAux w 0 [] []
    if r.isEmpty then [w] else r

/-- Vowel test of the advanced word extraction system
(advanced_word_extraction_system.py line 752: `set('aeiouAEIOU')`). -/
def hasVowelAdv (s : List Char) : Bool := s.any (fun c => c ∈ "aeiouAEIOU".toList)

/-- The loop of `_post_process_syllables` (lines 854-868) with the running
index `i` and the `processed` accumulator explicit.  A vowelless syllable
at `i > 0` is merged into `processed[-1]`; when `processed` is empty that
Python expression raises `IndexError`, modelled as `none`.  A vowelless
first syllable is pushed into the next one (mutating the list being
iterated, which the next iteration then sees), or kept when it is the
only syllable. -/
def postProcessAux : Nat → List (List Char) → List (List Char) → Option (List (List Char))
  | _, processed, [] => some processed
  | i, processed, s :: rest =>
    if hasVowelAdv s then postProcessAux (i + 1) (processed ++ [s]) rest
    else if i > 0 then
      if processed.isEmpty then none
      else postProcessAux (i + 1)
        (processed.dropLast ++ [(processed.getLast?.getD []) ++ s]) rest
    else
      match rest with
      | t :: rr => postProcessAux (i + 1) processed ((s ++ t) :: rr)
      | [] => postProcessAux (i + 1) (processed ++ [s]) []
termination_by _ _ rest => rest.length

/-- `_post_process_syllables` (advanced_word_extraction_system.py
lines 848-870). -/
def postProcessSyllables (sylls : List (List Char)) : Option (List (List Char)) :=
  if sylls.isEmpty then some sylls else postProcessAux 0 [] sylls

/-- `available_directions` assembly of
`KDPWordsearchGenerator._generate_direction_sequence`
(kdp_wordsearch_generator.py lines 220-242), from the difficulty
settings' direction families. -/
def kdpAvailableDirections (horiz vert diag : Bool) : List (Int × Int) :=
  (if horiz then [((1 : Int), (0 : Int)), (-1, 0)] else []) ++
  (if vert then [((0 : Int), (1 : Int)), (0, -1)] else []) ++
  (if diag then [((1 : Int), (1 : Int)), (-1, -1), (1, -1), (-1, 1)] else [])

/-- The per-syllable draw loop of `_generate_direction_sequence`
(lines 231-241): both the `i == 0` branch and the `i > 0` branch execute
`random.choice(available_directions)` over the full candidate list — the
previous direction is never removed. -/
def generateDirectionSequence (syllables : List (List Char))
    (avail : List (Int × Int)) (ks : List Nat) : List (Int × Int) :=
  (List.range syllables.length).map
    (fun i => avail.getD (ks.getD i 0 % avail.length) (0, 1))

/-- A filled-grid cell paired with the corresponding pre-fill cell is
acceptable when it is unchanged or holds one of the filler's letters. -/
def cellOk (q : Option Char × Option Char) : Bool :=
  q.1 == q.2 ||
  (match q.1 with
   | some ch => decide (ch ∈ lettersAZ)
   | none => false)

/- Concrete runs used by the settled claims.  The curated database of
`detect_syllables` supplies the syllabifications of the database words;
`moWordData`'s syllabification equals what the algorithmic fallback
returns for "mo" (a single syllable). -/

/-- `WordData` for "wisdom": word plus its curated syllables
`["wis", "dom"]`. -/
def wisdomWD : WordData := ⟨"wisdom".toList, ["wis", "dom"].map String.toList⟩

/-- `WordData` for "mo" with its (single-syllable) syllabification. -/
def moWD : WordData := ⟨"mo".toList, [['m', 'o']]⟩

/-- `WordData` for "presence": word plus its curated syllables
`["pres", "ence"]`. -/
def presenceWD : WordData := ⟨"presence".toList, ["pres", "ence"].map String.toList⟩

/-- The engine run of claim C1: "wisdom" attempted on an empty 4×4 grid,
starting at (0,0), drawing direction RIGHT for "wis" and then LEFT for
"dom" (draw index 0 twice: LEFT is the first candidate once RIGHT is
removed). -/
def c1Run : Grid × Option PlacedWord :=
  placeWordInGrid 4 4 (emptyGrid 4 4) wisdomWD [(0, 0, [0, 0])]

/-- First engine run of claim C2: "wisdom" from (1,0), RIGHT then LEFT. -/
def c2RunA : Grid × Option PlacedWord :=
  placeWordInGrid 4 4 (emptyGrid 4 4) wisdomWD [(1, 0, [0, 0])]

/-- Second engine run of claim C2: "mo" from (1,1) going RIGHT, placed on
the grid left by `c2RunA`. -/
def c2RunB : Grid × Option PlacedWord :=
  placeWordInGrid 4 4 c2RunA.1 moWD [(1, 1, [0])]

/-- The engine run of claim C4: "presence" on an empty 5×5 grid from
(0,0), RIGHT for "pres" then LEFT for "ence". -/
def c4Run : Grid × Option PlacedWord :=
  placeWordInGrid 5 5 (emptyGrid 5 5) presenceWD [(0, 0, [0, 0])]

/-- The generator run of claim C3: the 11-letter word "mindfulness"
requested on a 5×5 grid, with every one of the 100 attempts drawing start
(0,0) and direction UP (draw index 3), and the filler drawing letter 'a'
everywhere. -/
def c3Run : PuzzleResult :=
  generatePuzzle ⟨5, 5, emptyGrid 5 5, []⟩ ["mindfulness".toList]
    [List.replicate 100 ((0 : Int), (0 : Int), [3, 3, 3])] []

/-- A 3×3 grid holding a single letter 'x' at (0,0), used to instantiate
the acceptance/preservation theorem of claim C2 at a concrete input. -/
def c2WitnessGrid : Grid :=
  [[some 'x', none, none], [none, none, none], [none, none, none]]

/-- The concrete path used by the claim C2 witness: two cells rightwards
from (0,0). -/
def c2WitnessPath : List (Int × Int × Direction) :=
  [(0, 0, Direction.RIGHT), (0, 1, Direction.RIGHT)]

/-! ### Helper lemmas -/

theorem list_get?_set_self {α : Type} :
    ∀ (l : List α) (i : Nat) (a : α), i < l.length → (l.set i a).get? i = some a
  | _ :: _, 0, _, _ => rfl
  | _ :: t, i + 1, a, h =>
    list_get?_set_self t i a (Nat.lt_of_succ_lt_succ h)

theorem list_get?_set_ne {α : Type} :
    ∀ (l : List α) (i j : Nat) (a : α), i ≠ j → (l.set i a).get? j = l.get? j
  | [], _, _, _, _ => rfl
  | _ :: _, 0, 0, _, h => absurd rfl h
  | _ :: _, 0, _ + 1, _, _ => rfl
  | _ :: _, _ + 1, 0, _, _ => rfl
  | _ :: t, i + 1, j + 1, a, h =>
    list_get?_set_ne t i j a (fun he => h (by omega))

theorem list_lt_of_get?_some {α : Type} :
    ∀ {l : List α} {i : Nat} {a : α}, l.get? i = some a → i < l.length
  | _ :: _, 0, _, _ => Nat.succ_pos _
  | _ :: t, i + 1, _, h =>
    Nat.succ_lt_succ (list_lt_of_get?_some (l := t) (i := i) h)

theorem getCell_some {g : Grid} {r c : Int} {ch : Char}
    (h : getCell g r c = some ch) :
    0 ≤ r ∧ 0 ≤ c ∧
      ∃ row, g.get? r.toNat = some row ∧ row.get? c.toNat = some (some ch) := by
  unfold getCell at h
  split at h
  · exact Option.noConfusion h
  · rename_i hneg
    push_neg at hneg
    refine ⟨hneg.1, hneg.2, ?_⟩
    cases hrow : g.get? r.toNat with
    | none => rw [hrow] at h; exact Option.noConfusion h
    | some row =>
      rw [hrow] at h
      simp only [Option.some_bind] at h
      exact ⟨row, rfl, Option.join_eq_some.mp h⟩

theorem getCell_setCell_overwrite {g : Grid} {r c : Int} {x : Char}
    (ch : Char) (h : getCell g r c = some x) :
    getCell (setCell g r c ch) r c = some ch := by
  obtain ⟨hr, hc, row, hrow, hcell⟩ := getCell_some h
  have hneg : ¬(r < 0 ∨ c < 0) := by omega
  have hgetD : g.getD r.toNat [] = row := by
    rw [List.getD_eq_get?, hrow]; rfl
  unfold setCell getCell
  rw [if_neg hneg, if_neg hneg, hgetD,
    list_get?_set_self g r.toNat _ (list_lt_of_get?_some hrow)]
  simp only [Option.some_bind]
  rw [list_get?_set_self row c.toNat _ (list_lt_of_get?_some hcell)]
  rfl

theorem getCell_setCell_ne {g : Grid} {r c r' c' : Int} {ch : Char}
    (h : ¬(r' = r ∧ c' = c)) :
    getCell (setCell g r' c' ch) r c = getCell g r c := by
  unfold setCell
  split
  · rfl
  · rename_i hneg'
    push_neg at hneg'
    unfold getCell
    split
    · rfl
    · rename_i hneg
      push_neg at hneg
      by_cases hrr : r'.toNat = r.toNat
      · have hr : r' = r := by omega
        have hcc : c' ≠ c := fun hcEq => h ⟨hr, hcEq⟩
        have hccNat : c'.toNat ≠ c.toNat := by omega
        rw [← hrr]
        cases hrow : g.get? r'.toNat with
        | none =>
          have hge : g.length ≤ r'.toNat := by
            by_contra hlt
            push_neg at hlt
            rw [List.get?_eq_get hlt] at hrow
            exact Option.noConfusion hrow
          rw [List.set_eq_of_length_le hge, hrow]
        | some row =>
          have hgetD : g.getD r'.toNat [] = row := by
            rw [List.getD_eq_get?, hrow]; rfl
          rw [hgetD, list_get?_set_self g r'.toNat _ (list_lt_of_get?_some hrow)]
          simp only [Option.some_bind]
          rw [list_get?_set_ne row c'.toNat c.toNat _ hccNat]
      · rw [list_get?_set_ne g r'.toNat r.toNat _ hrr]

theorem foldl_setCell_preserve {r c : Int} {ch : Char} :
    ∀ (l : List ((Int × Int × Direction) × Char)) (g : Grid),
      getCell g r c = some ch →
      (∀ pr ∈ l, pr.1.1 = r ∧ pr.1.2.1 = c → pr.2 = ch) →
      getCell (l.foldl (fun gr pr => setCell gr pr.1.1 pr.1.2.1 pr.2) g) r c = some ch
  | [], g, hg, _ => hg
  | pr :: t, g, hg, hl => by
    simp only [List.foldl_cons]
    refine foldl_setCell_preserve t _ ?_ (fun q hq => hl q (List.mem_cons_of_mem _ hq))
    by_cases hpos : pr.1.1 = r ∧ pr.1.2.1 = c
    · have hch : pr.2 = ch := hl pr (List.mem_cons_self _ _) hpos
      rw [hpos.1, hpos.2, hch]
      exact getCell_setCell_overwrite ch hg
    · rw [getCell_setCell_ne hpos]
      exact hg

theorem lettersAZ_getD_mem (k : Nat) : lettersAZ.getD (k % 26) 'a' ∈ lettersAZ := by
  have hk : k % 26 < lettersAZ.length := Nat.mod_lt _ (by decide)
  rw [List.getD_eq_get?, List.get?_eq_get hk]
  exact List.get_mem lettersAZ _ hk

theorem fillRow_length : ∀ (ks : List Nat) (row : List (Option Char)),
    (fillRow ks row).1.length = row.length
  | _, [] => rfl
  | ks, none :: rest => by
    simp only [fillRow, List.length_cons]
    rw [fillRow_length ks.tail rest]
  | ks, some c :: rest => by
    simp only [fillRow, List.length_cons]
    rw [fillRow_length ks rest]

theorem fillRow_isSome : ∀ (ks : List Nat) (row : List (Option Char)),
    (fillRow ks row).1.all Option.isSome = true
  | _, [] => rfl
  | ks, none :: rest => by
    simp only [fillRow, List.all_cons, Option.isSome_some, Bool.true_and]
    exact fillRow_isSome ks.tail rest
  | ks, some c :: rest => by
    simp only [fillRow, List.all_cons, Option.isSome_some, Bool.true_and]
    exact fillRow_isSome ks rest

theorem fillRow_cellOk : ∀ (ks : List Nat) (row : List (Option Char)),
    ((fillRow ks row).1.zip row).all cellOk = true
  | _, [] => rfl
  | ks, none :: rest => by
    simp only [fillRow, List.zip_cons_cons, List.all_cons, Bool.and_eq_true]
    refine ⟨?_, fillRow_cellOk ks.tail rest⟩
    simp only [cellOk, Bool.or_eq_true]
    exact Or.inr (decide_eq_true (lettersAZ_getD_mem (ks.headD 0)))
  | ks, some c :: rest => by
    simp only [fillRow, List.zip_cons_cons, List.all_cons, Bool.and_eq_true]
    exact ⟨by simp [cellOk], fillRow_cellOk ks rest⟩

theorem fillRow_get?_some : ∀ (ks : List Nat) (row : List (Option Char)) (i : Nat) (ch : Char),
    row.get? i = some (some ch) → (fillRow ks row).1.get? i = some (some ch)
  | ks, none :: rest, 0, ch, h => by
    exact Option.noConfusion (Option.some.inj h)
  | ks, some c :: rest, 0, ch, h => by
    simp only [List.get?] at h
    simpa [fillRow] using h
  | ks, none :: rest, i + 1, ch, h => by
    simp only [fillRow, List.get?]
    exact fillRow_get?_some ks.tail rest i ch h
  | ks, some c :: rest, i + 1, ch, h => by
    simp only [fillRow, List.get?]
    exact fillRow_get?_some ks rest i ch h

theorem fillRows_all_isSome : ∀ (ks : List Nat) (g : Grid),
    (fillRows ks g).all (fun row => row.all Option.isSome) = true
  | _, [] => rfl
  | ks, row :: rest => by
    simp only [fillRows, List.all_cons, Bool.and_eq_true]
    exact ⟨fillRow_isSome ks row, fillRows_all_isSome (fillRow ks row).2 rest⟩

theorem fillRows_cellOk : ∀ (ks : List Nat) (g : Grid),
    ((fillRows ks g).zip g).all (fun p => (p.1.zip p.2).all cellOk) = true
  | _, [] => rfl
  | ks, row :: rest => by
    simp only [fillRows, List.zip_cons_cons, List.all_cons, Bool.and_eq_true]
    exact ⟨fillRow_cellOk ks row, fillRows_cellOk (fillRow ks row).2 rest⟩

theorem fillRows_lengths : ∀ (ks : List Nat) (g : Grid),
    (fillRows ks g).map List.length = g.map List.length
  | _, [] => rfl
  | ks, row :: rest => by
    simp only [fillRows, List.map_cons]
    rw [fillRow_length ks row, fillRows_lengths (fillRow ks row).2 rest]

theorem fillRows_get?_row : ∀ (ks : List Nat) (g : Grid) (rt : Nat) (row : List (Option Char)),
    g.get? rt = some row → ∃ ks', (fillRows ks g).get? rt = some (fillRow ks' row).1
  | ks, r0 :: rest, 0, row, h => by
    have : r0 = row := Option.some.inj h
    exact ⟨ks, by simp [fillRows, this]⟩
  | ks, r0 :: rest, rt + 1, row, h =>
    fillRows_get?_row (fillRow ks r0).2 rest rt row h

theorem list_getLast?_mem {α : Type} {l : List α} {a : α} (h : l.getLast? = some a) :
    a ∈ l := by
  obtain ⟨ys, rfl⟩ := List.getLast?_eq_some_iff.mp h
  exact List.mem_append_right ys (List.mem_singleton_self a)

theorem postProcessAux_inv (rest : List (List Char)) :
    ∀ (i : Nat) (processed : List (List Char)), 1 ≤ i → processed ≠ [] →
      processed.all hasVowelAdv = true →
      ∃ out, postProcessAux i processed rest = some out ∧ out ≠ [] ∧
        out.all hasVowelAdv = true := by
  induction rest with
  | nil =>
    intro i processed _ hne hall
    exact ⟨processed, by rw [postProcessAux.eq_def], hne, hall⟩
  | cons s rest ih =>
    intro i processed hi hne hall
    have hiPos : i > 0 := hi
    have hnemp : ¬ processed.isEmpty = true := by
      simpa [List.isEmpty_iff] using hne
    by_cases hv : hasVowelAdv s = true
    · rw [show postProcessAux i processed (s :: rest)
          = postProcessAux (i + 1) (processed ++ [s]) rest by
        rw [postProcessAux.eq_def]; simp [hv]]
      exact ih (i + 1) (processed ++ [s]) (by omega) (by simp)
        (by simp [List.all_append, hall, hv])
    · rw [show postProcessAux i processed (s :: rest)
          = postProcessAux (i + 1)
              (processed.dropLast ++ [(processed.getLast?.getD []) ++ s]) rest by
        rw [postProcessAux.eq_def]; simp [hv, hiPos, hnemp]]
      refine ih (i + 1) (processed.dropLast ++ [(processed.getLast?.getD []) ++ s])
        (by omega) (by simp) ?_
      rw [List.all_append, Bool.and_eq_true]
      cases hL : processed.getLast? with
      | none =>
        rw [List.getLast?_eq_none_iff] at hL
        exact absurd hL hne
      | some lastS =>
        refine ⟨?_, ?_⟩
        · rw [List.all_eq_true]
          intro x hx
          exact List.all_eq_true.mp hall x (List.dropLast_sublist processed |>.subset hx)
        · simp only [List.all_cons, List.all_nil, Bool.and_true, Option.getD_some]
          have hlast : hasVowelAdv lastS = true :=
            List.all_eq_true.mp hall lastS (list_getLast?_mem hL)
          simp only [hasVowelAdv, List.any_append] at hlast ⊢
          rw [hlast]
          rfl

theorem walkSyllable_valid (height width : Nat) (dir : Direction) :
    ∀ (chars : List Char) (r c : Int) (steps : List (Int × Int × Direction)) (r' c' : Int),
      walkSyllable height width chars r c dir = some (steps, r', c') →
      steps.all (fun st => isValidPosition height width st.1 st.2.1) = true := by
  intro chars
  induction chars with
  | nil =>
    intro r c steps r' c' h
    simp only [walkSyllable, Option.some.injEq, Prod.mk.injEq] at h
    rw [← h.1]
    rfl
  | cons ch rest ih =>
    intro r c steps r' c' h
    simp only [walkSyllable] at h
    split at h
    · rename_i hval
      split at h
      · rename_i steps0 r0 c0 hinner
        simp only [Option.some.injEq, Prod.mk.injEq] at h
        rw [← h.1, List.all_cons, hval]
        simpa using ih _ _ _ _ _ hinner
      · exact Option.noConfusion h
    · exact Option.noConfusion h

theorem genPathAux_valid (height width : Nat) :
    ∀ (sylls : List (List Char)) (r c : Int) (ks : List Nat)
      (path : List (Int × Int × Direction)) (first : Bool)
      (out : List (Int × Int × Direction)),
      path.all (fun st => isValidPosition height width st.1 st.2.1) = true →
      genPathAux height width sylls r c ks path first = some out →
      out.all (fun st => isValidPosition height width st.1 st.2.1) = true := by
  intro sylls
  induction sylls with
  | nil =>
    intro r c ks path first out hpath h
    simp only [genPathAux, Option.some.injEq] at h
    rw [← h]
    exact hpath
  | cons syl rest ih =>
    intro r c ks path first out hpath h
    simp only [genPathAux] at h
    split at h
    · rename_i steps r' c' hwalk
      refine ih r' c' ks.tail (path ++ steps) false out ?_ h
      rw [List.all_append, hpath, walkSyllable_valid height width _ syl r c steps r' c' hwalk]
      rfl
    · exact Option.noConfusion h

theorem placeWordInGrid_word (height width : Nat) (wd : WordData) :
    ∀ (attempts : List (Int × Int × List Nat)) (g : Grid) (pw : PlacedWord),
      (placeWordInGrid height width g wd attempts).2 = some pw → pw.word = wd.word := by
  intro attempts
  induction attempts with
  | nil => intro g pw h; exact Option.noConfusion h
  | cons att rest ih =>
    intro g pw h
    obtain ⟨sr, sc, ks⟩ := att
    simp only [placeWordInGrid] at h
    split at h
    · rename_i path hpath
      split at h
      · simp only at h
        rw [← Option.some.inj h]
      · exact ih g pw h
    · exact ih g pw h

theorem placeAll_mem (height width : Nat) :
    ∀ (wds : List WordData) (g : Grid) (placed : List PlacedWord)
      (atts : List (List (Int × Int × List Nat))) (pw : PlacedWord),
      pw ∈ (placeAll height width g placed wds atts).2 →
      pw ∈ placed ∨ ∃ wd ∈ wds, pw.word = wd.word := by
  intro wds
  induction wds with
  | nil =>
    intro g placed atts pw h
    exact Or.inl h
  | cons wd rest ih =>
    intro g placed atts pw h
    simp only [placeAll] at h
    split at h
    · rename_i g' pw' heq
      rcases ih _ _ _ _ h with hmem | ⟨wd', hwd', hword⟩
      · rcases List.mem_append.mp hmem with h1 | h2
        · exact Or.inl h1
        · have hpw : pw = pw' := List.mem_singleton.mp h2
          refine Or.inr ⟨wd, List.mem_cons_self _ _, ?_⟩
          rw [hpw]
          exact placeWordInGrid_word height width wd (atts.headD []) g pw'
            (by rw [heq])
      · exact Or.inr ⟨wd', List.mem_cons_of_mem _ hwd', hword⟩
    · rename_i g' heq
      rcases ih _ _ _ _ h with hmem | ⟨wd', hwd', hword⟩
      · exact Or.inl hmem
      · exact Or.inr ⟨wd', List.mem_cons_of_mem _ hwd', hword⟩

theorem mem_insertByLenDesc (wd : WordData) :
    ∀ (l : List WordData) (x : WordData), x ∈ insertByLenDesc wd l → x = wd ∨ x ∈ l
  | [], x, h => Or.inl (List.mem_singleton.mp h)
  | y :: ys, x, h => by
    simp only [insertByLenDesc] at h
    split at h
    · rcases List.mem_cons.mp h with h1 | h2
      · exact Or.inl h1
      · exact Or.inr h2
    · rcases List.mem_cons.mp h with h1 | h2
      · exact Or.inr (h1 ▸ List.mem_cons_self _ _)
      · rcases mem_insertByLenDesc wd ys x h2 with h3 | h4
        · exact Or.inl h3
        · exact Or.inr (List.mem_cons_of_mem _ h4)

theorem mem_sortByLenDesc : ∀ (l : List WordData) (x : WordData),
    x ∈ sortByLenDesc l → x ∈ l
  | [], x, h => absurd h (List.not_mem_nil x)
  | y :: ys, x, h => by
    simp only [sortByLenDesc, List.foldr_cons] at h
    rcases mem_insertByLenDesc y (List.foldr insertByLenDesc [] ys) x h with h1 | h2
    · exact h1 ▸ List.mem_cons_self _ _
    · exact List.mem_cons_of_mem _ (mem_sortByLenDesc ys x h2)

/-! ### The claims -/

/-- Claim C1 (code found in violation): the engine reports "wisdom" as
successfully placed (one attempt, start (0,0), directions RIGHT for "wis"
then LEFT for "dom"), yet reading the grid along the recorded placement
path after commit yields "wmodom", not "wisdom": the path revisits cells
(0,2) and (0,1) and the later letters overwrite the earlier ones, so the
i-th path cell does not hold the i-th character of the word.  The word
data used is exactly `detect_syllables`' output for "wisdom". -/
theorem C1_path_readback_mismatch :
    createWordData "wisdom".toList = wisdomWD
    ∧ c1Run.2.map (fun pw => readPath c1Run.1 pw.path) = some ("wmodom".toList.map some)
    ∧ c1Run.2.map PlacedWord.word = some "wisdom".toList
    ∧ "wmodom".toList ≠ "wisdom".toList :=
  ⟨by decide, by decide, by decide, by decide⟩

/-- Claim C2 (counterexample): after placing "wisdom" from (1,0) RIGHT
then LEFT, its self-crossing path demands both 'i' and 'm' at the shared
cell (1,1); "mo" is then accepted across that cell demanding 'm'.  The
two placed words share cell (1,1) but the letters they require there are
not identical ('i' ≠ 'm'). -/
theorem C2_shared_cell_letters_differ :
    c2RunA.2.map (fun pw => lettersRequiredAt pw 1 1) = some ['i', 'm']
    ∧ c2RunB.2.map (fun pw => lettersRequiredAt pw 1 1) = some ['m']
    ∧ ('i' : Char) ≠ 'm' :=
  ⟨by decide, by decide, by decide⟩

/-- Claim C2 (amended): a placement attempt is accepted by
`_can_place_word_at_path` only if every cell on its path is empty or
already holds the exact letter the word requires there, and committing an
accepted placement never changes a cell that already held a letter before
the attempt.  (Identical letters at cells shared by two placed words
follow only when no word's own path revisits a cell with a different
letter, which the engine does not guarantee.) -/
theorem C2_accept_requires_compatible_cells (height width : Nat) (g : Grid)
    (word : List Char) (path : List (Int × Int × Direction))
    (hcan : canPlaceWordAtPath height width g word path = true) :
    (∀ pr ∈ path.zip word,
        getCell g pr.1.1 pr.1.2.1 = none ∨ getCell g pr.1.1 pr.1.2.1 = some pr.2)
    ∧ ∀ (r c : Int) (ch : Char), getCell g r c = some ch →
        getCell (placeWordAtPath g word path) r c = some ch := by
  unfold canPlaceWordAtPath at hcan
  rw [Bool.and_eq_true] at hcan
  have hall := List.all_eq_true.mp hcan.2
  have hcompat : ∀ pr ∈ path.zip word,
      getCell g pr.1.1 pr.1.2.1 = none ∨ getCell g pr.1.1 pr.1.2.1 = some pr.2 := by
    intro pr hpr
    have h3 := hall pr hpr
    rw [Bool.and_eq_true, Bool.or_eq_true] at h3
    rcases h3.2 with h4 | h4
    · exact Or.inl (eq_of_beq h4)
    · exact Or.inr (eq_of_beq h4)
  refine ⟨hcompat, ?_⟩
  intro r c ch hg
  unfold placeWordAtPath
  refine foldl_setCell_preserve (path.zip word) g hg ?_
  intro pr hpr hpos
  rcases hcompat pr hpr with h4 | h4
  · rw [hpos.1, hpos.2, hg] at h4
    exact Option.noConfusion h4
  · rw [hpos.1, hpos.2, hg] at h4
    exact (Option.some.inj h4).symm

/-- Claim C2 witness: the acceptance/preservation theorem instantiated on
a 3×3 grid holding 'x' at (0,0) and the word "xy" placed rightwards from
(0,0). -/
theorem C2_accept_requires_compatible_cells_witness :
    (∀ pr ∈ c2WitnessPath.zip "xy".toList,
        getCell c2WitnessGrid pr.1.1 pr.1.2.1 = none
        ∨ getCell c2WitnessGrid pr.1.1 pr.1.2.1 = some pr.2)
    ∧ ∀ (r c : Int) (ch : Char), getCell c2WitnessGrid r c = some ch →
        getCell (placeWordAtPath c2WitnessGrid "xy".toList c2WitnessPath) r c = some ch :=
  C2_accept_requires_compatible_cells 3 3 c2WitnessGrid "xy".toList c2WitnessPath (by decide)

/-- Claim C3 (counterexample): requesting the 11-letter word
"mindfulness" on a 5×5 grid does not fail at construction or validation
time — `generate_puzzle` has no validation step.  The engine attempts
placement (100 attempts, all failing under these draws), silently omits
the word, and still returns a completed, fully-filled grid. -/
theorem C3_oversized_word_not_rejected :
    c3Run.placedWords = []
    ∧ c3Run.grid.all (fun row => row.all Option.isSome) = true :=
  ⟨by decide, by decide⟩

/-- Claim C3 (amended): `generate_puzzle` performs no configuration
validation and never fails: for every generator state, word list,
difficulty and sequence of random draws it returns a result whose grid is
completely filled, and every placed word originates from the requested
word list (unplaceable words are simply omitted). -/
theorem C3_generation_is_total_best_effort (st : GenState) (words : List (List Char))
    (atts : List (List (Int × Int × List Nat))) (fillKs : List Nat) :
    (generatePuzzle st words atts fillKs).grid.all (fun row => row.all Option.isSome) = true
    ∧ ∀ pw ∈ (generatePuzzle st words atts fillKs).placedWords,
        ∃ w ∈ words, pw.word = normalizeWord w := by
  constructor
  · exact fillRows_all_isSome _ _
  · intro pw hpw
    rcases placeAll_mem st.height st.width _ _ _ _ pw hpw with h1 | ⟨wd, hwd, hword⟩
    · exact absurd h1 (List.not_mem_nil pw)
    · obtain ⟨w, hw, rfl⟩ := List.mem_map.mp (mem_sortByLenDesc _ _ hwd)
      exact ⟨w, hw, hword⟩

/-- Claim C4 (counterexample): the engine reports "presence" as placed on
an empty 5×5 grid (start (0,0), RIGHT for "pres" then LEFT for "ence"),
and the recorded path's coordinates are not pairwise distinct: the
reversed second syllable revisits cells of the first. -/
theorem C4_recorded_path_revisits_cells :
    createWordData "presence".toList = presenceWD
    ∧ c4Run.2.map (fun pw =>
        decide ((pw.path.map (fun st => (st.1, st.2.1))).Nodup)) = some false :=
  ⟨by decide, by decide⟩

/-- Claim C4 (amended): every coordinate of every path produced by
`_generate_syllable_path` is within the grid bounds
`[0, rows) × [0, cols)` (each cell is checked by `_is_valid_position`
before being recorded); pairwise distinctness of the coordinates is not
guaranteed. -/
theorem C4_generated_paths_in_bounds (height width : Nat) (sylls : List (List Char))
    (sr sc : Int) (ks : List Nat) (path : List (Int × Int × Direction))
    (h : generateSyllablePath height width sylls sr sc ks = some path) :
    path.all (fun st => isValidPosition height width st.1 st.2.1) = true :=
  genPathAux_valid height width sylls sr sc ks [] true path rfl h

/-- Claim C4 witness: the in-bounds theorem instantiated on the length-2
syllable ['a','b'] placed rightwards from (0,0) on a 3×3 grid. -/
theorem C4_generated_paths_in_bounds_witness :
    [((0 : Int), (0 : Int), Direction.RIGHT),
     ((0 : Int), (1 : Int), Direction.RIGHT)].all
      (fun st => isValidPosition 3 3 st.1 st.2.1) = true :=
  C4_generated_paths_in_bounds 3 3 [['a', 'b']] 0 0 [0]
    [(0, 0, Direction.RIGHT), (0, 1, Direction.RIGHT)] (by decide)

/-- Claim C5 (code found in violation): on the lowercase alphabetic word
"mindful" the syllaflow algorithmic splitter returns syllables
concatenating to "mindfdful" — the cluster rewind re-scans characters and
duplicates them — while the sibling splitter `split_syllables`
(mineru_integration_module.py) reconstructs the word exactly. -/
theorem C5_splitter_duplicates_characters :
    (algorithmicSyllableDetection "mindful".toList).flatten = "mindfdful".toList
    ∧ "mindfdful".toList ≠ "mindful".toList
    ∧ (splitSyllables "mindful".toList).flatten = "mindful".toList := by
  refine ⟨?_, by decide, ?_⟩
  · simp [algorithmicSyllableDetection, asdAux, isVowelSF]
    decide
  · simp [splitSyllables, splitSyllablesAux, isSyllableBoundaryMU, isVowelMU,
      clustersMU, appendToLast]
    decide

/-- Claim C6: the grid filler leaves no cell empty — for every grid and
every sequence of filler draws, all cells of the result hold a letter
(fill ratio 1.0), every cell is either unchanged or one of the filler's
26 letters, and row lengths are preserved; in particular filling an empty
4×4 grid yields 16 cells, each a letter a–z. -/
theorem C6_fill_leaves_no_empty_cell :
    (∀ (ks : List Nat) (g : Grid),
        (fillEmptySpaces ks g).all (fun row => row.all Option.isSome) = true
        ∧ ((fillEmptySpaces ks g).zip g).all (fun p => (p.1.zip p.2).all cellOk) = true
        ∧ (fillEmptySpaces ks g).map List.length = g.map List.length)
    ∧ (fillEmptySpaces [] (emptyGrid 4 4)).flatten.length = 16
    ∧ (fillEmptySpaces [] (emptyGrid 4 4)).all
        (fun row => row.all (fun cell =>
          match cell with
          | some ch => decide (ch ∈ lettersAZ)
          | none => false)) = true :=
  ⟨fun ks g => ⟨fillRows_all_isSome ks g, fillRows_cellOk ks g, fillRows_lengths ks g⟩,
   by decide, by decide⟩

/-- Claim C7 (counterexample): the syllaflow algorithmic splitter applies
no vowel-merge post-processing: on "mind" (length > 2, contains a vowel)
it returns the syllable "dd", which contains no vowel. -/
theorem C7_vowelless_syllable_returned :
    algorithmicSyllableDetection "mind".toList = [['m', 'i', 'n'], ['d', 'd']]
    ∧ (['d', 'd'].any isVowelSF) = false
    ∧ "mind".toList.length > 2
    ∧ "mind".toList.any isVowelSF = true := by
  refine ⟨?_, by decide, by decide, by decide⟩
  · simp [algorithmicSyllableDetection, asdAux, isVowelSF]
    decide

/-- Claim C7 (amended): the merge step exists only in
`_post_process_syllables` of the advanced word-extraction system, and
there it does guarantee the invariant: for any non-empty scan output
whose first syllable has a vowel (or whose first two syllables merged
have one — otherwise the code raises), every returned syllable contains
at least one vowel, vowelless syllables being merged into the previous
syllable, or into the next when first. -/
theorem C7_merge_restores_vowel_invariant (sylls : List (List Char))
    (h1 : sylls ≠ [])
    (h2 : match sylls with
          | [] => True
          | [s0] => hasVowelAdv s0 = true
          | s0 :: s1 :: _ => hasVowelAdv s0 = true ∨ hasVowelAdv (s0 ++ s1) = true) :
    ∃ out, postProcessSyllables sylls = some out ∧ out ≠ []
      ∧ out.all hasVowelAdv = true := by
  rcases sylls with _ | ⟨s0, rest⟩
  · exact absurd rfl h1
  · by_cases hv : hasVowelAdv s0 = true
    · have e1 : postProcessSyllables (s0 :: rest) = postProcessAux 1 [s0] rest := by
        unfold postProcessSyllables
        rw [if_neg (by simp), postProcessAux.eq_def]
        simp [hv]
      rw [e1]
      exact postProcessAux_inv rest 1 [s0] le_rfl (by simp) (by simp [hv])
    · rcases rest with _ | ⟨s1, rest'⟩
      · exact absurd h2 hv
      · have hv2 : hasVowelAdv (s0 ++ s1) = true := by
          rcases h2 with h | h
          · exact absurd h hv
          · exact h
        have e1 : postProcessSyllables (s0 :: s1 :: rest')
            = postProcessAux 1 [] ((s0 ++ s1) :: rest') := by
          unfold postProcessSyllables
          rw [if_neg (by simp), postProcessAux.eq_def]
          simp [hv]
        have e2 : postProcessAux 1 [] ((s0 ++ s1) :: rest')
            = postProcessAux 2 [s0 ++ s1] rest' := by
          rw [postProcessAux.eq_def]
          simp [hv2]
        rw [e1, e2]
        exact postProcessAux_inv rest' 2 [s0 ++ s1] (by omega) (by simp) (by simp [hv2])

/-- Claim C7 witness: the merge theorem instantiated on the scan output
[['m','i','n'], ['d','d']] (the vowelless "dd" is merged into "min"). -/
theorem C7_merge_restores_vowel_invariant_witness :
    ∃ out, postProcessSyllables [['m', 'i', 'n'], ['d', 'd']] = some out ∧ out ≠ []
      ∧ out.all hasVowelAdv = true :=
  C7_merge_restores_vowel_invariant [['m', 'i', 'n'], ['d', 'd']] (by decide) (by decide)

/-- Claim C8 (counterexample): in the syllaflow engine the previous
syllable's direction is always removed from the candidate list — there is
no draw under which two consecutive syllables of a two-syllable word use
the same direction (checked over every pair of draw indices), and the
candidate list after a RIGHT run is exactly the other seven directions. -/
theorem C8_repetition_never_possible_syllaflow :
    ((List.range 8).all (fun k1 => (List.range 8).all (fun k2 =>
      match generateSyllablePath 6 6 [['a', 'b'], ['c', 'd']] 2 2 [k1, k2] with
      | some p => !((p.getD 1 (0, 0, Direction.RIGHT)).2.2
          == (p.getD 2 (0, 0, Direction.RIGHT)).2.2)
      | none => true))) = true
    ∧ availableDirectionsSyllaflow false (some Direction.RIGHT)
      = [Direction.LEFT, Direction.DOWN, Direction.UP, Direction.DOWN_RIGHT,
         Direction.DOWN_LEFT, Direction.UP_RIGHT, Direction.UP_LEFT] :=
  ⟨by decide, by decide⟩

/-- Claim C8 (amended): the direction policy differs per implementation:
the KDP generator draws every syllable's direction from the full
configured direction set, so repetition across consecutive syllables is
possible there (draw indices (0,0) give RIGHT twice), while the syllaflow
engine unconditionally excludes the previous syllable's direction —
mandatory alternation, with no call-site flag to disable it. -/
theorem C8_policy_differs_per_implementation :
    generateDirectionSequence [['a', 'b'], ['c', 'd']]
      (kdpAvailableDirections true true true) [0, 0] = [(1, 0), (1, 0)]
    ∧ ∀ d : Direction, d ∉ availableDirectionsSyllaflow false (some d) := by
  refine ⟨by decide, ?_⟩
  intro d
  cases d <;> decide

/-- Claim C9: the grid filler never alters an already-filled cell — a
cell holding a letter before `_fill_empty_spaces` holds the same letter
afterwards, for every grid and every sequence of filler draws. -/
theorem C9_fill_preserves_filled_cells (ks : List Nat) (g : Grid) (r c : Int) (ch : Char)
    (h : getCell g r c = some ch) : getCell (fillEmptySpaces ks g) r c = some ch := by
  obtain ⟨hr, hc, row, hrow, hcell⟩ := getCell_some h
  obtain ⟨ks', hks⟩ := fillRows_get?_row ks g r.toNat row hrow
  unfold fillEmptySpaces getCell
  rw [if_neg (by omega), hks]
  simp only [Option.some_bind]
  rw [fillRow_get?_some ks' row c.toNat ch hcell]
  rfl

/-- Claim C9 witness: the preservation theorem instantiated on a 2×2 grid
holding 'q' at (0,0). -/
theorem C9_fill_preserves_filled_cells_witness :
    getCell (fillEmptySpaces [] [[some 'q', none], [none, some 'z']]) 0 0 = some 'q' :=
  C9_fill_preserves_filled_cells [] [[some 'q', none], [none, some 'z']] 0 0 'q' (by decide)

/-- Claim C10: `generate_puzzle` resets the grid and the placed-word list
before any placement, so its result is independent of the grid and
placements left in the generator state by earlier calls: two states
agreeing on the dimensions yield identical results for the same word
list and draws. -/
theorem C10_result_independent_of_prior_state (w h : Nat) (g1 g2 : Grid)
    (p1 p2 : List PlacedWord) (words : List (List Char))
    (atts : List (List (Int × Int × List Nat))) (fillKs : List Nat) :
    generatePuzzle ⟨w, h, g1, p1⟩ words atts fillKs
      = generatePuzzle ⟨w, h, g2, p2⟩ words atts fillKs := rfl
